import Mathlib

set_option maxHeartbeats 1000000

/-!
Shallow embedding of the two logic-bearing components of the Google
Workspace MCP server (`serverv3.js`): the OAuth2 credential lifecycle
manager (`loadSavedCredentialsIfExist`, `saveCredentials`,
`ensureValidToken`, `authorize`, and the CallTool handler wrapper) and
the free-slot computation (`findFreeSlots`).

Times are modelled as `Int` epoch milliseconds. External effects
(`refreshAccessToken`, `getAccessToken`, the interactive `authenticate`
flow, filesystem reads) are supplied as explicit parameters; filesystem
writes performed by `saveCredentials` are recorded as an operation trace.
-/

/-- OAuth2 credential fields held on the client (`client.credentials`).
`Option` models JSON fields that may be absent. -/
structure Credentials where
  refresh_token : Option String
  access_token : Option String
  token_type : Option String
  expiry_date : Option Int
deriving DecidableEq, Repr

/-- One client-key entry (the object under `keys.installed` or `keys.web`). -/
structure OAuthKey where
  client_id : String
  client_secret : String
  redirect_uris : List String
deriving DecidableEq, Repr

/-- The parsed credentials/keys file: `{installed: ..., web: ...}`. -/
structure KeysFile where
  installed : Option OAuthKey
  web : Option OAuthKey
deriving DecidableEq, Repr

/-- `keys.installed || keys.web`. -/
def keyOf (keys : KeysFile) : Option OAuthKey :=
  match keys.installed with
  | some k => some k
  | none => keys.web

/-- The OAuth2 client object that `loadSavedCredentialsIfExist` builds:
`new google.auth.OAuth2(key.client_id, key.client_secret,
key.redirect_uris[0])` followed by `client.setCredentials(...)`. -/
structure OAuthClient where
  client_id : String
  client_secret : String
  redirect_uri : Option String
  credentials : Credentials
deriving DecidableEq, Repr

/-- Outcome of consulting one credential source (an environment variable or
a file): unset/missing, present but rejected by `JSON.parse`, or parsed. -/
inductive Source (α : Type) where
  | absent
  | malformed
  | valid (a : α)
deriving DecidableEq, Repr

def mkOAuthClient (key : OAuthKey) (credentials : Credentials) : OAuthClient :=
  { client_id := key.client_id
    client_secret := key.client_secret
    redirect_uri := key.redirect_uris.head?
    credentials := credentials }

/-- `loadSavedCredentialsIfExist`: tries `process.env.GOOGLE_TOKEN` first
(with keys from `process.env.GOOGLE_CREDENTIALS` or the credentials file),
otherwise reads the token file and the credentials file. The whole body sits
inside `try ... catch (err) { return null }`, so every failure path —
a missing file, a `JSON.parse` error, or a missing `installed`/`web` key —
produces `none`. -/
def loadSavedCredentialsIfExist (envToken : Source Credentials)
    (envKeys : Source KeysFile) (tokenFile : Source Credentials)
    (keysFile : Source KeysFile) : Option OAuthClient :=
  match envToken with
  | Source.malformed => none
  | Source.valid credentials =>
      match (match envKeys with | Source.absent => keysFile | s => s) with
      | Source.valid keys =>
          match keyOf keys with
          | some key => some (mkOAuthClient key credentials)
          | none => none
      | _ => none
  | Source.absent =>
      match tokenFile with
      | Source.valid credentials =>
          match keysFile with
          | Source.valid keys =>
              match keyOf keys with
              | some key => some (mkOAuthClient key credentials)
              | none => none
          | _ => none
      | _ => none

def TOKEN_PATH : String := "token.json"

def CREDENTIALS_PATH : String := "credentials.json"

/-- The record `JSON.stringify`-ed by `saveCredentials`. -/
structure SavedPayload where
  type : String
  client_id : String
  client_secret : String
  refresh_token : Option String
  access_token : Option String
  token_type : Option String
  expiry_date : Option Int
deriving DecidableEq, Repr

/-- A filesystem operation issued by the credential manager. -/
inductive FsOp where
  | readFile (p : String)
  | writeFile (p : String) (data : SavedPayload)
  | rename (src : String) (dst : String)
deriving DecidableEq, Repr

/-- `saveCredentials(client)` as its trace of filesystem operations: read the
credentials file, then a single direct `fs.writeFile(TOKEN_PATH, payload)`.
If neither `installed` nor `web` is present, the property access on the
undefined key throws after the read, so no write occurs. -/
def saveCredentials (keys : KeysFile) (creds : Credentials) : List FsOp :=
  match keyOf keys with
  | none => [FsOp.readFile CREDENTIALS_PATH]
  | some key =>
      [FsOp.readFile CREDENTIALS_PATH,
       FsOp.writeFile TOKEN_PATH
         { type := "authorized_user"
           client_id := key.client_id
           client_secret := key.client_secret
           refresh_token := creds.refresh_token
           access_token := creds.access_token
           token_type := creds.token_type
           expiry_date := creds.expiry_date }]

/-- Modelled from the spec: "persists atomically (write-temp-then-rename or
an equivalent)". A trace persists atomically to `target` when no write
touches `target` directly and the trace ends with a rename of a distinct
temporary path onto `target`. This definition follows the spec's words and
exists only to be compared with the trace the source actually produces. -/
def isAtomicPersist (ops : List FsOp) (target : String) : Bool :=
  (ops.all fun op =>
    match op with
    | FsOp.writeFile p _ => p != target
    | _ => true) &&
  (match ops.getLast? with
   | some (FsOp.rename src dst) => src != target && dst == target
   | _ => false)

/-- Result of one `ensureValidToken()` call: the normal/thrown outcome, the
value of `this.auth` afterwards (outer `none` = `this.auth` null, inner
`none` = `this.auth.credentials` absent), whether `refreshAccessToken()` was
invoked, and the credentials handed to `saveCredentials` if it was called. -/
structure EnsureResult where
  result : Except String Unit
  auth : Option (Option Credentials)
  refreshAttempted : Bool
  savedToken : Option Credentials
deriving Repr

/-- `ensureValidToken()`. `refreshResult` is the outcome the external
`this.auth.refreshAccessToken()` call would produce. No expiry, a falsy
(zero) expiry, or `expiry <= now` forces a mandatory refresh whose failure
is rethrown as "Token inválido, se requiere re-autenticación"; an expiry
within five minutes triggers a best-effort refresh whose failure is only
logged; otherwise the call is a no-op. On refresh success the returned
credentials are installed via `setCredentials` and passed to
`saveCredentials`. -/
def ensureValidToken (auth : Option (Option Credentials)) (now : Int)
    (refreshResult : Except String Credentials) : EnsureResult :=
  match auth with
  | none => ⟨Except.error "No hay autenticación disponible", auth, false, none⟩
  | some none => ⟨Except.error "No hay autenticación disponible", auth, false, none⟩
  | some (some creds) =>
      match creds.expiry_date with
      | none =>
          match refreshResult with
          | Except.ok newCreds =>
              ⟨Except.ok (), some (some newCreds), true, some newCreds⟩
          | Except.error _ =>
              ⟨Except.error "Token inválido, se requiere re-autenticación",
                auth, true, none⟩
      | some e =>
          if e = 0 ∨ e ≤ now then
            match refreshResult with
            | Except.ok newCreds =>
                ⟨Except.ok (), some (some newCreds), true, some newCreds⟩
            | Except.error _ =>
                ⟨Except.error "Token inválido, se requiere re-autenticación",
                  auth, true, none⟩
          else if e - now < 5 * 60 * 1000 then
            match refreshResult with
            | Except.ok newCreds =>
                ⟨Except.ok (), some (some newCreds), true, some newCreds⟩
            | Except.error _ => ⟨Except.ok (), auth, true, none⟩
          else ⟨Except.ok (), auth, false, none⟩

/-- A CallTool response: rendered text plus the error flag. -/
structure ToolResponse where
  text : String
  isError : Bool
deriving DecidableEq, Repr

/-- The CallToolRequestSchema handler: it first awaits `ensureValidToken`,
then dispatches to the named tool; any thrown error is caught and converted
into a normal failed-result response (`isError: true`), never a crash. -/
def handleToolCall (ensure : EnsureResult)
    (dispatch : Except String String) : ToolResponse :=
  match ensure.result with
  | Except.error msg => ⟨"Error: " ++ msg, true⟩
  | Except.ok _ =>
      match dispatch with
      | Except.ok out => ⟨out, false⟩
      | Except.error msg => ⟨"Error: " ++ msg, true⟩

/-- The client handle `authorize` works with; only the presence of
`client.credentials` matters to its control flow. -/
structure AuthClient where
  credentials : Option Credentials
deriving DecidableEq, Repr

/-- Outcome of `authorize()`: the returned client and whether
`saveCredentials` was called before returning. -/
structure AuthorizeOutcome where
  client : AuthClient
  savedCalled : Bool
deriving DecidableEq, Repr

/-- The fallback branch of `authorize`: run the interactive `authenticate`
flow and save only when the fresh client carries credentials. -/
def freshAuthPath (fresh : AuthClient) : AuthorizeOutcome :=
  if fresh.credentials.isSome then ⟨fresh, true⟩ else ⟨fresh, false⟩

/-- `authorize()`: if a saved client loads and its `getAccessToken()` probe
succeeds it is returned as-is; otherwise the interactive flow runs.
`probeOk` is the probe outcome, `fresh` the client the interactive flow
yields when it is reached. -/
def authorize (loaded : Option AuthClient) (probeOk : Bool)
    (fresh : AuthClient) : AuthorizeOutcome :=
  match loaded with
  | some c => if probeOk then ⟨c, false⟩ else freshAuthPath fresh
  | none => freshAuthPath fresh

/-- A busy calendar interval, in epoch milliseconds. -/
structure BusyInterval where
  s : Int
  e : Int
deriving DecidableEq, Repr

/-- An emitted free slot: start, end, and duration in whole minutes. -/
structure FreeSlot where
  s : Int
  e : Int
  duration : Int
deriving DecidableEq, Repr

/-- `currentTime = eventEnd > currentTime ? eventEnd : currentTime`. -/
def advance (current : Int) (ev : BusyInterval) : Int :=
  if ev.e > current then ev.e else current

/-- The event loop of `findFreeSlots`: emits a slot whenever the gap before
the next busy interval is at least `duration` minutes, advances the cursor,
and returns the emitted slots together with the final cursor. Durations use
`Math.floor((end - start) / 60000)`, i.e. floor division. -/
def slotsLoop (duration : Int) : Int → List BusyInterval → List FreeSlot × Int
  | current, [] => ([], current)
  | current, ev :: rest =>
      let emitted : List FreeSlot :=
        if duration * 60000 ≤ ev.s - current then
          [⟨current, ev.s, Int.fdiv (ev.s - current) 60000⟩]
        else []
      let next := slotsLoop duration (advance current ev) rest
      (emitted ++ next.1, next.2)

/-- `findFreeSlots(startDate, endDate, duration)` over an already-listed,
start-time-ordered event list: run the loop from `windowStart`, then emit a
trailing slot if the remainder up to `windowEnd` is long enough. -/
def findFreeSlots (windowStart windowEnd duration : Int)
    (events : List BusyInterval) : List FreeSlot :=
  let r := slotsLoop duration windowStart events
  if duration * 60000 ≤ windowEnd - r.2 then
    r.1 ++ [⟨r.2, windowEnd, Int.fdiv (windowEnd - r.2) 60000⟩]
  else r.1

/-- The cursor value after processing the whole event list, assuming the
`advance` rule resolves to each event's end (which it does on ordered
input). -/
def lastEnd : Int → List BusyInterval → Int
  | current, [] => current
  | _, ev :: rest => lastEnd ev.e rest

/-- The event list is sorted, non-overlapping, well-formed, and contained in
`[current, windowEnd]`. -/
def wellOrderedB : Int → Int → List BusyInterval → Bool
  | current, windowEnd, [] => decide (current ≤ windowEnd)
  | current, windowEnd, ev :: rest =>
      decide (current ≤ ev.s) && decide (ev.s ≤ ev.e) &&
        wellOrderedB ev.e windowEnd rest

/-- Every gap between the cursor and the next busy interval is either empty
or at least `d` milliseconds long. -/
def gapsAuxB (d : Int) : Int → List BusyInterval → Bool
  | _, [] => true
  | current, ev :: rest =>
      decide (ev.s - current = 0 ∨ d ≤ ev.s - current) && gapsAuxB d ev.e rest

/-- All maximal gaps — before each busy interval and the trailing gap up to
`windowEnd` — are either empty or at least `d` milliseconds long. -/
def gapsOkB (d windowStart windowEnd : Int) (events : List BusyInterval) : Bool :=
  gapsAuxB d windowStart events &&
    decide (windowEnd - lastEnd windowStart events = 0 ∨
      d ≤ windowEnd - lastEnd windowStart events)

/-- Concrete fixtures used by counterexamples and witnesses. -/
def sampleKey : OAuthKey :=
  { client_id := "id-1", client_secret := "secret-1",
    redirect_uris := ["http://localhost"] }

def sampleKeys : KeysFile :=
  { installed := some sampleKey, web := none }

def sampleCreds : Credentials :=
  { refresh_token := some "r-1", access_token := some "a-1",
    token_type := some "Bearer", expiry_date := some 1000 }

def downgradedCreds : Credentials :=
  { refresh_token := some "r-2", access_token := some "a-2",
    token_type := some "Bearer", expiry_date := some 500 }

def noExpiryCreds : Credentials :=
  { refresh_token := some "r-3", access_token := some "a-3",
    token_type := some "Bearer", expiry_date := none }

def sampleClient : AuthClient := ⟨some sampleCreds⟩

def freshClient : AuthClient := ⟨some downgradedCreds⟩

/-! ## Helper lemmas -/

theorem advance_ge (current : Int) (ev : BusyInterval) :
    current ≤ advance current ev := by
  unfold advance; split <;> omega

theorem advance_eq_end {current : Int} {ev : BusyInterval}
    (h : current ≤ ev.e) : advance current ev = ev.e := by
  unfold advance; split <;> omega

theorem advance_ge_end (current : Int) (ev : BusyInterval) :
    ev.e ≤ advance current ev := by
  unfold advance; split <;> omega

theorem wellOrderedB_nil {c we : Int} (h : wellOrderedB c we [] = true) :
    c ≤ we := by
  simpa [wellOrderedB] using h

theorem wellOrderedB_cons {c we : Int} {ev : BusyInterval}
    {rest : List BusyInterval} (h : wellOrderedB c we (ev :: rest) = true) :
    c ≤ ev.s ∧ ev.s ≤ ev.e ∧ wellOrderedB ev.e we rest = true := by
  simp only [wellOrderedB, Bool.and_eq_true, decide_eq_true_eq] at h
  exact ⟨h.1.1, h.1.2, h.2⟩

theorem gapsAuxB_cons {d c : Int} {ev : BusyInterval}
    {rest : List BusyInterval} (h : gapsAuxB d c (ev :: rest) = true) :
    (ev.s - c = 0 ∨ d ≤ ev.s - c) ∧ gapsAuxB d ev.e rest = true := by
  simp only [gapsAuxB, Bool.and_eq_true, decide_eq_true_eq] at h
  exact h

theorem slotsLoop_fst_cons (d c : Int) (ev : BusyInterval)
    (rest : List BusyInterval) :
    (slotsLoop d c (ev :: rest)).1 =
      (if d * 60000 ≤ ev.s - c then
        [⟨c, ev.s, Int.fdiv (ev.s - c) 60000⟩]
      else []) ++ (slotsLoop d (advance c ev) rest).1 := rfl

theorem slotsLoop_snd_cons (d c : Int) (ev : BusyInterval)
    (rest : List BusyInterval) :
    (slotsLoop d c (ev :: rest)).2 = (slotsLoop d (advance c ev) rest).2 := rfl

theorem slotsLoop_cursor_le (d : Int) (evs : List BusyInterval) :
    ∀ current, current ≤ (slotsLoop d current evs).2 := by
  induction evs with
  | nil => intro c; exact le_refl c
  | cons ev rest ih =>
      intro c
      rw [slotsLoop_snd_cons]
      exact le_trans (advance_ge c ev) (ih (advance c ev))

theorem slotsLoop_fin_eq (d : Int) (evs : List BusyInterval) :
    ∀ c we, wellOrderedB c we evs = true →
      (slotsLoop d c evs).2 = lastEnd c evs := by
  induction evs with
  | nil => intro c we _; rfl
  | cons ev rest ih =>
      intro c we h
      obtain ⟨h1, h2, h3⟩ := wellOrderedB_cons h
      have hadv : advance c ev = ev.e := advance_eq_end (le_trans h1 h2)
      show (slotsLoop d (advance c ev) rest).2 = lastEnd ev.e rest
      rw [hadv]
      exact ih ev.e we h3

theorem lastEnd_bounds (evs : List BusyInterval) :
    ∀ c we, wellOrderedB c we evs = true →
      c ≤ lastEnd c evs ∧ lastEnd c evs ≤ we := by
  induction evs with
  | nil => intro c we h; exact ⟨le_refl c, wellOrderedB_nil h⟩
  | cons ev rest ih =>
      intro c we h
      obtain ⟨h1, h2, h3⟩ := wellOrderedB_cons h
      obtain ⟨ha, hb⟩ := ih ev.e we h3
      exact ⟨le_trans (le_trans h1 h2) ha, hb⟩

theorem events_bounds (evs : List BusyInterval) :
    ∀ c we, wellOrderedB c we evs = true →
      ∀ b ∈ evs, c ≤ b.s ∧ b.s ≤ b.e ∧ b.e ≤ lastEnd c evs := by
  induction evs with
  | nil => intro c we _ b hb; simp at hb
  | cons ev rest ih =>
      intro c we h b hb
      obtain ⟨h1, h2, h3⟩ := wellOrderedB_cons h
      rcases List.mem_cons.mp hb with hb | hb
      · subst hb
        exact ⟨h1, h2, (lastEnd_bounds rest b.e we h3).1⟩
      · obtain ⟨ha, hbb, hc⟩ := ih ev.e we h3 b hb
        exact ⟨le_trans (le_trans h1 h2) ha, hbb, hc⟩

theorem slots_bounds (d : Int) (evs : List BusyInterval) :
    ∀ c we, wellOrderedB c we evs = true →
      ∀ f ∈ (slotsLoop d c evs).1,
        c ≤ f.s ∧ f.s ≤ f.e ∧ f.e ≤ (slotsLoop d c evs).2 := by
  induction evs with
  | nil => intro c we _ f hf; simp [slotsLoop] at hf
  | cons ev rest ih =>
      intro c we h f hf
      obtain ⟨h1, h2, h3⟩ := wellOrderedB_cons h
      have hadv : advance c ev = ev.e := advance_eq_end (le_trans h1 h2)
      have h3a : wellOrderedB (advance c ev) we rest = true := by
        rw [hadv]; exact h3
      have hfin : ev.e ≤ (slotsLoop d c (ev :: rest)).2 := by
        rw [slotsLoop_snd_cons, hadv]
        exact slotsLoop_cursor_le d rest ev.e
      rw [slotsLoop_fst_cons] at hf
      rcases List.mem_append.mp hf with hf | hf
      · by_cases hgap : d * 60000 ≤ ev.s - c
        · rw [if_pos hgap] at hf
          simp only [List.mem_singleton] at hf
          subst hf
          exact ⟨le_refl c, h1, le_trans h2 hfin⟩
        · rw [if_neg hgap] at hf; simp at hf
      · obtain ⟨ha, hb, hc⟩ := ih (advance c ev) we h3a f hf
        have hce : ev.e ≤ f.s := by rw [← hadv]; exact ha
        refine ⟨le_trans (le_trans h1 h2) hce, hb, ?_⟩
        rw [slotsLoop_snd_cons]
        exact hc

theorem slots_pairwise (d : Int) (evs : List BusyInterval) :
    ∀ c we, wellOrderedB c we evs = true →
      List.Pairwise (fun a b => a.e ≤ b.s) (slotsLoop d c evs).1 := by
  induction evs with
  | nil => intro c we _; simp [slotsLoop]
  | cons ev rest ih =>
      intro c we h
      obtain ⟨h1, h2, h3⟩ := wellOrderedB_cons h
      have hadv : advance c ev = ev.e := advance_eq_end (le_trans h1 h2)
      have h3a : wellOrderedB (advance c ev) we rest = true := by
        rw [hadv]; exact h3
      have htail := ih (advance c ev) we h3a
      rw [slotsLoop_fst_cons]
      by_cases hgap : d * 60000 ≤ ev.s - c
      · rw [if_pos hgap, List.singleton_append, List.pairwise_cons]
        refine ⟨?_, htail⟩
        intro f hf
        have := (slots_bounds d rest (advance c ev) we h3a f hf).1
        rw [hadv] at this
        exact le_trans h2 this
      · rw [if_neg hgap, List.nil_append]
        exact htail

theorem slots_events_disjoint (d : Int) (evs : List BusyInterval) :
    ∀ c we, wellOrderedB c we evs = true → ∀ t : Int,
      (∃ f ∈ (slotsLoop d c evs).1, f.s ≤ t ∧ t < f.e) →
      (∃ b ∈ evs, b.s ≤ t ∧ t < b.e) → False := by
  induction evs with
  | nil => intro c we _ t hfree _; obtain ⟨f, hf, _⟩ := hfree; simp [slotsLoop] at hf
  | cons ev rest ih =>
      intro c we h t hfree hbusy
      obtain ⟨h1, h2, h3⟩ := wellOrderedB_cons h
      have hadv : advance c ev = ev.e := advance_eq_end (le_trans h1 h2)
      have h3a : wellOrderedB (advance c ev) we rest = true := by
        rw [hadv]; exact h3
      obtain ⟨f, hf, hts, hte⟩ := hfree
      obtain ⟨b, hb, hbs, hbe⟩ := hbusy
      rw [slotsLoop_fst_cons] at hf
      rcases List.mem_append.mp hf with hf | hf
      · have hfe : f.e = ev.s := by
          by_cases hgap : d * 60000 ≤ ev.s - c
          · rw [if_pos hgap, List.mem_singleton] at hf; rw [hf]
          · rw [if_neg hgap] at hf; simp at hf
        rcases List.mem_cons.mp hb with hb | hb
        · subst hb; rw [hfe] at hte; omega
        · have := (events_bounds rest ev.e we h3 b hb).1
          rw [hfe] at hte
          omega
      · have hfs : ev.e ≤ f.s := by
          have := (slots_bounds d rest (advance c ev) we h3a f hf).1
          rw [hadv] at this; exact this
        rcases List.mem_cons.mp hb with hb | hb
        · subst hb; omega
        · exact ih (advance c ev) we h3a t ⟨f, hf, hts, hte⟩
            ⟨b, hb, hbs, hbe⟩

theorem slots_cover (duration : Int) (evs : List BusyInterval) :
    ∀ c we, wellOrderedB c we evs = true →
      gapsAuxB (duration * 60000) c evs = true → ∀ t : Int,
      (c ≤ t ∧ t < lastEnd c evs) ↔
        ((∃ f ∈ (slotsLoop duration c evs).1, f.s ≤ t ∧ t < f.e) ∨
         (∃ b ∈ evs, b.s ≤ t ∧ t < b.e)) := by
  induction evs with
  | nil =>
      intro c we _ _ t
      constructor
      · intro h; exfalso; simp [lastEnd] at h; omega
      · rintro (⟨f, hf, _⟩ | ⟨b, hb, _⟩)
        · simp [slotsLoop] at hf
        · simp at hb
  | cons ev rest ih =>
      intro c we h hg t
      obtain ⟨h1, h2, h3⟩ := wellOrderedB_cons h
      obtain ⟨hgap0, hgrest⟩ := gapsAuxB_cons hg
      have hadv : advance c ev = ev.e := advance_eq_end (le_trans h1 h2)
      have h3a : wellOrderedB (advance c ev) we rest = true := by
        rw [hadv]; exact h3
      have hgresta : gapsAuxB (duration * 60000) (advance c ev) rest = true := by
        rw [hadv]; exact hgrest
      have hle : lastEnd c (ev :: rest) = lastEnd ev.e rest := rfl
      have hlb := lastEnd_bounds rest ev.e we h3
      constructor
      · rintro ⟨hct, htl⟩
        rw [hle] at htl
        by_cases hts : t < ev.s
        · left
          have hgap : duration * 60000 ≤ ev.s - c := by
            rcases hgap0 with h0 | h0
            · omega
            · exact h0
          refine ⟨⟨c, ev.s, Int.fdiv (ev.s - c) 60000⟩, ?_, hct, hts⟩
          rw [slotsLoop_fst_cons, if_pos hgap]
          exact List.mem_append_left _ (List.mem_singleton.mpr rfl)
        · by_cases hte : t < ev.e
          · right
            exact ⟨ev, List.mem_cons_self ev rest, by omega, hte⟩
          · have := (ih (advance c ev) we h3a hgresta t).mp
              ⟨by rw [hadv]; omega, by rw [hadv]; exact htl⟩
            rcases this with ⟨f, hf, hp⟩ | ⟨b, hb, hp⟩
            · left
              refine ⟨f, ?_, hp⟩
              rw [slotsLoop_fst_cons]
              exact List.mem_append_right _ hf
            · right
              exact ⟨b, List.mem_cons_of_mem ev hb, hp⟩
      · rintro (⟨f, hf, hts, hte⟩ | ⟨b, hb, hbs, hbe⟩)
        · have hbnd := slots_bounds duration (ev :: rest) c we h f hf
          have hfe : (slotsLoop duration c (ev :: rest)).2 = lastEnd c (ev :: rest) :=
            slotsLoop_fin_eq duration (ev :: rest) c we h
          rw [hfe] at hbnd
          omega
        · have hbnd := events_bounds (ev :: rest) c we h b hb
          omega

/-! ## Claim theorems -/

/-- C10: calling `ensureValidToken` with `this.auth` null or with
`this.auth.credentials` absent throws "No hay autenticación disponible"
immediately: no refresh is attempted, nothing is saved, and the auth state
is unchanged. -/
theorem ensureValidToken_no_auth (auth : Option (Option Credentials))
    (now : Int) (refreshResult : Except String Credentials)
    (h : auth = none ∨ auth = some none) :
    ensureValidToken auth now refreshResult =
      ⟨Except.error "No hay autenticación disponible", auth, false, none⟩ := by
  rcases h with h | h <;> subst h <;> rfl

theorem ensureValidToken_no_auth_witness :
    ensureValidToken none 0 (Except.error "boom") =
      ⟨Except.error "No hay autenticación disponible", none, false, none⟩ :=
  ensureValidToken_no_auth none 0 (Except.error "boom") (Or.inl rfl)

/-- C1: when the stored expiry is absent or has passed, `ensureValidToken`
always attempts the mandatory refresh, and when that refresh fails the call
throws the re-authentication error, which the CallTool handler converts into
a normal failed result (`isError` true) instead of crashing. -/
theorem ensureValidToken_hard_expired (creds : Credentials) (now : Int)
    (refreshResult : Except String Credentials)
    (dispatch : Except String String)
    (hexp : creds.expiry_date = none ∨
      ∃ e, creds.expiry_date = some e ∧ e ≤ now) :
    (ensureValidToken (some (some creds)) now refreshResult).refreshAttempted
        = true ∧
    (∀ msg, refreshResult = Except.error msg →
      (ensureValidToken (some (some creds)) now refreshResult).result =
        Except.error "Token inválido, se requiere re-autenticación" ∧
      handleToolCall (ensureValidToken (some (some creds)) now refreshResult)
          dispatch =
        ⟨"Error: Token inválido, se requiere re-autenticación", true⟩) := by
  have hred : ensureValidToken (some (some creds)) now refreshResult =
      match refreshResult with
      | Except.ok newCreds =>
          ⟨Except.ok (), some (some newCreds), true, some newCreds⟩
      | Except.error _ =>
          ⟨Except.error "Token inválido, se requiere re-autenticación",
            some (some creds), true, none⟩ := by
    rcases hexp with h | ⟨e, he, hle⟩
    · simp [ensureValidToken, h]
    · simp only [ensureValidToken, he]
      rw [if_pos (Or.inr hle)]
  rw [hred]
  cases refreshResult with
  | ok c =>
      refine ⟨rfl, ?_⟩
      intro msg h
      cases h
  | error m =>
      refine ⟨rfl, ?_⟩
      intro msg h
      exact ⟨rfl, rfl⟩

theorem ensureValidToken_hard_expired_witness :
    ((ensureValidToken (some (some noExpiryCreds)) 0
        (Except.error "net down")).refreshAttempted = true ∧
    (∀ msg, (Except.error "net down" : Except String Credentials) =
        Except.error msg →
      (ensureValidToken (some (some noExpiryCreds)) 0
          (Except.error "net down")).result =
        Except.error "Token inválido, se requiere re-autenticación" ∧
      handleToolCall (ensureValidToken (some (some noExpiryCreds)) 0
          (Except.error "net down")) (Except.ok "unused") =
        ⟨"Error: Token inválido, se requiere re-autenticación", true⟩)) :=
  ensureValidToken_hard_expired noExpiryCreds 0 (Except.error "net down")
    (Except.ok "unused") (Or.inl rfl)

/-- C2: when the stored expiry lies strictly between now and now plus five
minutes, `ensureValidToken` attempts a best-effort refresh and returns
normally even if the refresh errors, keeping the still-valid credentials in
place. (`0 ≤ now` reflects that `Date.now()` is a post-epoch clock; it rules
out the impossible case of a "falsy" zero expiry in the future.) -/
theorem ensureValidToken_near_expiry (creds : Credentials) (now e : Int)
    (refreshResult : Except String Credentials) (hnow : 0 ≤ now)
    (he : creds.expiry_date = some e) (h1 : now < e)
    (h2 : e < now + 5 * 60 * 1000) :
    (ensureValidToken (some (some creds)) now refreshResult).refreshAttempted
        = true ∧
    (ensureValidToken (some (some creds)) now refreshResult).result =
      Except.ok () ∧
    (∀ msg, refreshResult = Except.error msg →
      (ensureValidToken (some (some creds)) now refreshResult).auth =
        some (some creds)) := by
  have hne : ¬ (e = 0 ∨ e ≤ now) := by omega
  have hlt : e - now < 5 * 60 * 1000 := by omega
  have hred : ensureValidToken (some (some creds)) now refreshResult =
      match refreshResult with
      | Except.ok newCreds =>
          ⟨Except.ok (), some (some newCreds), true, some newCreds⟩
      | Except.error _ => ⟨Except.ok (), some (some creds), true, none⟩ := by
    simp only [ensureValidToken, he]
    rw [if_neg hne, if_pos hlt]
  rw [hred]
  cases refreshResult with
  | ok c =>
      refine ⟨rfl, rfl, ?_⟩
      intro msg h
      cases h
  | error m =>
      refine ⟨rfl, rfl, ?_⟩
      intro msg h
      rfl

theorem ensureValidToken_near_expiry_witness :
    ((ensureValidToken (some (some sampleCreds)) 0
        (Except.error "net down")).refreshAttempted = true ∧
    (ensureValidToken (some (some sampleCreds)) 0
        (Except.error "net down")).result = Except.ok () ∧
    (∀ msg, (Except.error "net down" : Except String Credentials) =
        Except.error msg →
      (ensureValidToken (some (some sampleCreds)) 0
          (Except.error "net down")).auth = some (some sampleCreds))) :=
  ensureValidToken_near_expiry sampleCreds 0 1000 (Except.error "net down")
    (by decide) rfl (by decide) (by decide)

/-- C8 counterexample: a successful mandatory refresh whose response carries
an *earlier* expiry (500) than the stored one (1000) is still installed and
handed to `saveCredentials`; the persisted expiry does not strictly
increase, refuting the no-downgrade invariant as stated. -/
theorem ensureValidToken_downgrade_cex :
    (ensureValidToken (some (some sampleCreds)) 2000
        (Except.ok downgradedCreds)).savedToken = some downgradedCreds ∧
    (ensureValidToken (some (some sampleCreds)) 2000
        (Except.ok downgradedCreds)).auth = some (some downgradedCreds) ∧
    sampleCreds.expiry_date = some 1000 ∧
    downgradedCreds.expiry_date = some 500 ∧
    ¬ ((500 : Int) > 1000) := by
  exact ⟨by decide, by decide, rfl, rfl, by decide⟩

/-- C8 amended: on every successful refresh — whether triggered by the
mandatory branch (expiry absent, falsy, or past) or by the best-effort
near-expiry branch — the manager unconditionally installs and persists
whatever credentials the refresh returned; it performs no expiry comparison,
so the stored expiry strictly increases only when the refresh response
happens to carry a later expiry. The hypothesis enumerates exactly the
conditions under which either branch invokes a refresh. -/
theorem ensureValidToken_refresh_adopts (creds newCreds : Credentials)
    (now : Int)
    (hexp : creds.expiry_date = none ∨
      ∃ e, creds.expiry_date = some e ∧
        (e = 0 ∨ e ≤ now ∨ e - now < 5 * 60 * 1000)) :
    ensureValidToken (some (some creds)) now (Except.ok newCreds) =
      ⟨Except.ok (), some (some newCreds), true, some newCreds⟩ := by
  rcases hexp with h | ⟨e, he, hcond⟩
  · simp [ensureValidToken, h]
  · simp only [ensureValidToken, he]
    by_cases h0 : e = 0 ∨ e ≤ now
    · rw [if_pos h0]
    · rw [if_neg h0, if_pos (by omega)]

theorem ensureValidToken_refresh_adopts_witness :
    ensureValidToken (some (some sampleCreds)) 900
        (Except.ok downgradedCreds) =
      ⟨Except.ok (), some (some downgradedCreds), true,
        some downgradedCreds⟩ :=
  ensureValidToken_refresh_adopts sampleCreds downgradedCreds 900
    (Or.inr ⟨1000, rfl, by omega⟩)

/-- C3 counterexample: a persisted token source that exists but is malformed
yields `none` from `loadSavedCredentialsIfExist` — exactly the same result
as when the token sources are absent — rather than raising any
`CredentialFormatError`-style failure (the implementation catches every
error and returns null). -/
theorem loadSavedCredentials_malformed_cex :
    loadSavedCredentialsIfExist Source.absent Source.absent Source.malformed
      (Source.valid sampleKeys) = none ∧
    loadSavedCredentialsIfExist Source.absent Source.absent Source.absent
      (Source.valid sampleKeys) = none :=
  ⟨rfl, rfl⟩

/-- C3 amended: `loadSavedCredentialsIfExist` returns `none` — never an
exception — when neither the environment override nor the token file is
present, when a present token source (env or file) is malformed, and also
when the token source is valid but the consulted key source (env keys, or
the keys file on either path) is malformed; absence and malformation are
indistinguishable in its result. -/
theorem loadSavedCredentials_none_on_absent_or_malformed
    (c : Credentials) (envKeys : Source KeysFile)
    (tokenFile : Source Credentials) (keysFile : Source KeysFile) :
    loadSavedCredentialsIfExist Source.absent envKeys Source.absent
        keysFile = none ∧
    loadSavedCredentialsIfExist Source.absent envKeys Source.malformed
        keysFile = none ∧
    loadSavedCredentialsIfExist Source.malformed envKeys tokenFile
        keysFile = none ∧
    loadSavedCredentialsIfExist (Source.valid c) Source.malformed tokenFile
        keysFile = none ∧
    loadSavedCredentialsIfExist (Source.valid c) Source.absent tokenFile
        Source.malformed = none ∧
    loadSavedCredentialsIfExist Source.absent envKeys (Source.valid c)
        Source.malformed = none :=
  ⟨rfl, rfl, rfl, rfl, rfl, rfl⟩

/-- C4 counterexample: when a saved client loads and its `getAccessToken`
probe succeeds, `authorize` returns it immediately without calling
`saveCredentials`, refuting "save() is called before returning on either
path". -/
theorem authorize_loadPath_no_save_cex :
    authorize (some sampleClient) true freshClient =
      ⟨sampleClient, false⟩ :=
  rfl

/-- C4 amended: `authorize` calls `saveCredentials` before returning exactly
when the interactive fallback runs (no saved client, or the probe failed)
and the fresh client carries credentials; the load-and-probe success path
returns the loaded client without saving. -/
theorem authorize_save_iff (loaded : Option AuthClient) (probeOk : Bool)
    (fresh : AuthClient) :
    (authorize loaded probeOk fresh).savedCalled = true ↔
      ((loaded = none ∨ probeOk = false) ∧
        fresh.credentials.isSome = true) := by
  cases loaded with
  | none => cases h : fresh.credentials <;> simp [authorize, freshAuthPath, h]
  | some c =>
      cases probeOk <;> cases h : fresh.credentials <;>
        simp [authorize, freshAuthPath, h]

/-- C9 counterexample: `saveCredentials` issues a single direct write to the
token path with no temporary file and no rename, so its trace is not an
atomic write-temp-then-rename persist. -/
theorem saveCredentials_not_atomic_cex :
    saveCredentials sampleKeys sampleCreds =
      [FsOp.readFile CREDENTIALS_PATH,
       FsOp.writeFile TOKEN_PATH
         ⟨"authorized_user", "id-1", "secret-1", some "r-1", some "a-1",
          some "Bearer", some 1000⟩] ∧
    isAtomicPersist (saveCredentials sampleKeys sampleCreds) TOKEN_PATH
      = false :=
  ⟨rfl, by decide⟩

/-- C9 amended: every `saveCredentials` call serializes all current
credential fields (refresh token, access token, token type, expiry) merged
with the client id and secret from the key source, but persists them with
one direct `fs.writeFile` to the token path — not via write-temp-then-rename
— so a crash mid-write can truncate the token file. -/
theorem saveCredentials_direct_write (keys : KeysFile) (creds : Credentials)
    (key : OAuthKey) (hk : keyOf keys = some key) :
    saveCredentials keys creds =
      [FsOp.readFile CREDENTIALS_PATH,
       FsOp.writeFile TOKEN_PATH
         { type := "authorized_user"
           client_id := key.client_id
           client_secret := key.client_secret
           refresh_token := creds.refresh_token
           access_token := creds.access_token
           token_type := creds.token_type
           expiry_date := creds.expiry_date }] := by
  simp [saveCredentials, hk]

theorem saveCredentials_direct_write_witness :
    saveCredentials sampleKeys downgradedCreds =
      [FsOp.readFile CREDENTIALS_PATH,
       FsOp.writeFile TOKEN_PATH
         ⟨"authorized_user", "id-1", "secret-1", some "r-2", some "a-2",
          some "Bearer", some 500⟩] :=
  saveCredentials_direct_write sampleKeys downgradedCreds sampleKey rfl

/-- C6: for the window [09:00, 17:00) with a 30-minute minimum and busy
intervals (10:00,10:15) and (12:00,13:00) — all as milliseconds from
midnight — `findFreeSlots` returns exactly (09:00,10:00) of 60 minutes,
(10:15,12:00) of 105 minutes, and (13:00,17:00) of 240 minutes, in order. -/
theorem findFreeSlots_concrete_window :
    findFreeSlots 32400000 61200000 30
      [⟨36000000, 36900000⟩, ⟨43200000, 46800000⟩] =
      [⟨32400000, 36000000, 60⟩, ⟨36900000, 43200000, 105⟩,
       ⟨46800000, 61200000, 240⟩] := by
  decide

theorem slots_start_ge (d : Int) (evs : List BusyInterval) :
    ∀ c, ∀ f ∈ (slotsLoop d c evs).1, c ≤ f.s := by
  induction evs with
  | nil => intro c f hf; simp [slotsLoop] at hf
  | cons ev rest ih =>
      intro c f hf
      rw [slotsLoop_fst_cons] at hf
      rcases List.mem_append.mp hf with hf | hf
      · by_cases hgap : d * 60000 ≤ ev.s - c
        · rw [if_pos hgap, List.mem_singleton] at hf
          subst hf
          exact le_refl c
        · rw [if_neg hgap] at hf; simp at hf
      · exact le_trans (advance_ge c ev) (ih (advance c ev) f hf)

theorem slots_end_le (d : Int) (evs : List BusyInterval) :
    ∀ c, (∀ ev ∈ evs, ev.s ≤ ev.e) →
      ∀ f ∈ (slotsLoop d c evs).1, f.e ≤ (slotsLoop d c evs).2 := by
  induction evs with
  | nil => intro c _ f hf; simp [slotsLoop] at hf
  | cons ev rest ih =>
      intro c hwf f hf
      have hwfe : ev.s ≤ ev.e := hwf ev (List.mem_cons_self ev rest)
      have hwfr : ∀ b ∈ rest, b.s ≤ b.e := fun b hb =>
        hwf b (List.mem_cons_of_mem ev hb)
      rw [slotsLoop_fst_cons] at hf
      rw [slotsLoop_snd_cons]
      rcases List.mem_append.mp hf with hf | hf
      · by_cases hgap : d * 60000 ≤ ev.s - c
        · rw [if_pos hgap, List.mem_singleton] at hf
          subst hf
          have h1 : ev.e ≤ advance c ev := advance_ge_end c ev
          have h2 := slotsLoop_cursor_le d rest (advance c ev)
          exact le_trans hwfe (le_trans h1 h2)
        · rw [if_neg hgap] at hf; simp at hf
      · exact ih (advance c ev) hwfr f hf

theorem slots_starts_lt (d : Int) (hd : 0 < d) (evs : List BusyInterval) :
    ∀ c, (∀ ev ∈ evs, ev.s ≤ ev.e) →
      List.Pairwise (fun a b => a.s < b.s) (slotsLoop d c evs).1 := by
  induction evs with
  | nil => intro c _; simp [slotsLoop]
  | cons ev rest ih =>
      intro c hwf
      have hwfe : ev.s ≤ ev.e := hwf ev (List.mem_cons_self ev rest)
      have hwfr : ∀ b ∈ rest, b.s ≤ b.e := fun b hb =>
        hwf b (List.mem_cons_of_mem ev hb)
      have htail := ih (advance c ev) hwfr
      rw [slotsLoop_fst_cons]
      by_cases hgap : d * 60000 ≤ ev.s - c
      · rw [if_pos hgap, List.singleton_append, List.pairwise_cons]
        refine ⟨?_, htail⟩
        intro f hf
        have h60 : (60000 : Int) ≤ d * 60000 :=
          le_mul_of_one_le_left (by norm_num) (by omega)
        have h1 : ev.e ≤ advance c ev := advance_ge_end c ev
        have h2 := slots_start_ge d rest (advance c ev) f hf
        show c < f.s
        omega
      · rw [if_neg hgap, List.nil_append]
        exact htail

theorem slots_emitted_props (d : Int) (hd : 0 < d)
    (evs : List BusyInterval) :
    ∀ c, ∀ f ∈ (slotsLoop d c evs).1, f.s < f.e ∧ 0 ≤ f.duration := by
  induction evs with
  | nil => intro c f hf; simp [slotsLoop] at hf
  | cons ev rest ih =>
      intro c f hf
      rw [slotsLoop_fst_cons] at hf
      rcases List.mem_append.mp hf with hf | hf
      · by_cases hgap : d * 60000 ≤ ev.s - c
        · rw [if_pos hgap, List.mem_singleton] at hf
          subst hf
          have h60 : (60000 : Int) ≤ d * 60000 :=
            le_mul_of_one_le_left (by norm_num) (by omega)
          refine ⟨by show c < ev.s; omega, ?_⟩
          show 0 ≤ Int.fdiv (ev.s - c) 60000
          exact Int.fdiv_nonneg (by omega) (by norm_num)
        · rw [if_neg hgap] at hf; simp at hf
      · exact ih (advance c ev) f hf

/-- C7: with a positive minimum duration and well-formed busy intervals
(start at or before end) — including any inputs with overlapping or
contained intervals, which the `max`-advance cursor rule merges —
`findFreeSlots` never emits a negative-length or negative-duration free
slot, and never emits a duplicate free slot. -/
theorem findFreeSlots_no_negative_no_duplicate (ws we d : Int)
    (evs : List BusyInterval) (hd : 0 < d)
    (hwf : ∀ ev ∈ evs, ev.s ≤ ev.e) :
    (∀ f ∈ findFreeSlots ws we d evs, f.s < f.e ∧ 0 ≤ f.duration) ∧
    (findFreeSlots ws we d evs).Nodup := by
  have h60 : (60000 : Int) ≤ d * 60000 :=
    le_mul_of_one_le_left (by norm_num) (by omega)
  have hprops := slots_emitted_props d hd evs ws
  have hlt := slots_starts_lt d hd evs ws hwf
  have hend := slots_end_le d evs ws hwf
  have hpwfull :
      List.Pairwise (fun a b => a.s < b.s) (findFreeSlots ws we d evs) := by
    simp only [findFreeSlots]
    by_cases hc : d * 60000 ≤ we - (slotsLoop d ws evs).2
    · rw [if_pos hc, List.pairwise_append]
      refine ⟨hlt, List.pairwise_singleton _ _, ?_⟩
      intro f hf tr htr
      rw [List.mem_singleton] at htr
      subst htr
      have h1 := (hprops f hf).1
      have h2 := hend f hf
      show f.s < (slotsLoop d ws evs).2
      omega
    · rw [if_neg hc]
      exact hlt
  refine ⟨?_, ?_⟩
  · intro f hf
    simp only [findFreeSlots] at hf
    by_cases hc : d * 60000 ≤ we - (slotsLoop d ws evs).2
    · rw [if_pos hc] at hf
      rcases List.mem_append.mp hf with hf | hf
      · exact hprops f hf
      · rw [List.mem_singleton] at hf
        subst hf
        refine ⟨by show (slotsLoop d ws evs).2 < we; omega, ?_⟩
        show 0 ≤ Int.fdiv (we - (slotsLoop d ws evs).2) 60000
        exact Int.fdiv_nonneg (by omega) (by norm_num)
    · rw [if_neg hc] at hf
      exact hprops f hf
  · exact hpwfull.imp fun hab heq => absurd (congrArg FreeSlot.s heq) (ne_of_lt hab)

theorem findFreeSlots_no_negative_no_duplicate_witness :
    ((∀ f ∈ findFreeSlots 0 7200000 30
        [⟨600000, 3600000⟩, ⟨1200000, 1800000⟩], f.s < f.e ∧ 0 ≤ f.duration) ∧
    (findFreeSlots 0 7200000 30
        [⟨600000, 3600000⟩, ⟨1200000, 1800000⟩]).Nodup) :=
  findFreeSlots_no_negative_no_duplicate 0 7200000 30
    [⟨600000, 3600000⟩, ⟨1200000, 1800000⟩] (by decide) (by decide)

/-- C5 counterexample: window [0, 60min), minimum duration 30, one busy
interval (10min, 50min) fully inside the window. Both boundary gaps are
10 minutes, shorter than the minimum, so `findFreeSlots` emits nothing; the
instant 0 lies in the window but in neither the busy interval nor any
emitted free interval, so the union fails to reconstruct the window. -/
theorem findFreeSlots_roundTrip_cex :
    findFreeSlots 0 3600000 30 [⟨600000, 3000000⟩] = [] ∧
    ((0 : Int) ≤ 0 ∧ (0 : Int) < 3600000) ∧
    ¬ (∃ b ∈ [(⟨600000, 3000000⟩ : BusyInterval)],
        b.s ≤ (0 : Int) ∧ (0 : Int) < b.e) :=
  ⟨by decide, by decide, by decide⟩

/-- C5 amended: for a sorted, non-overlapping, well-formed busy list inside
the window, the round trip holds provided every maximal gap (before each
busy interval and the trailing gap) is either empty or at least the minimum
duration — gaps shorter than the minimum are dropped from the output, which
is what the counterexample exhibits. Under that proviso the emitted free
intervals and the busy intervals exactly cover the window with no overlap:
every instant of the window lies in a free or busy interval and vice versa,
no instant is both free and busy, and the free intervals are mutually
disjoint (each ends no later than the next starts). -/
theorem findFreeSlots_roundTrip (ws we duration : Int)
    (evs : List BusyInterval)
    (hw : wellOrderedB ws we evs = true)
    (hg : gapsOkB (duration * 60000) ws we evs = true) :
    (∀ t : Int, (ws ≤ t ∧ t < we) ↔
       ((∃ f ∈ findFreeSlots ws we duration evs, f.s ≤ t ∧ t < f.e) ∨
        (∃ b ∈ evs, b.s ≤ t ∧ t < b.e))) ∧
    (∀ t : Int,
      ¬ ((∃ f ∈ findFreeSlots ws we duration evs, f.s ≤ t ∧ t < f.e) ∧
         (∃ b ∈ evs, b.s ≤ t ∧ t < b.e))) ∧
    List.Pairwise (fun a b => a.e ≤ b.s)
      (findFreeSlots ws we duration evs) := by
  have hga : gapsAuxB (duration * 60000) ws evs = true := by
    simp only [gapsOkB, Bool.and_eq_true] at hg
    exact hg.1
  have htr : we - lastEnd ws evs = 0 ∨
      duration * 60000 ≤ we - lastEnd ws evs := by
    simp only [gapsOkB, Bool.and_eq_true, decide_eq_true_eq] at hg
    exact hg.2
  have hfin : (slotsLoop duration ws evs).2 = lastEnd ws evs :=
    slotsLoop_fin_eq duration evs ws we hw
  have hcov := slots_cover duration evs ws we hw hga
  have hdisj := slots_events_disjoint duration evs ws we hw
  have hpw := slots_pairwise duration evs ws we hw
  have hbnd := slots_bounds duration evs ws we hw
  have hev := events_bounds evs ws we hw
  have hlb := lastEnd_bounds evs ws we hw
  simp only [findFreeSlots]
  by_cases hc : duration * 60000 ≤ we - (slotsLoop duration ws evs).2
  · rw [if_pos hc]
    refine ⟨?_, ?_, ?_⟩
    · intro t
      constructor
      · rintro ⟨h1t, h2t⟩
        by_cases htl : t < lastEnd ws evs
        · rcases (hcov t).mp ⟨h1t, htl⟩ with ⟨f, hf, hp⟩ | hbusy
          · exact Or.inl ⟨f, List.mem_append_left _ hf, hp⟩
          · exact Or.inr hbusy
        · left
          refine ⟨⟨(slotsLoop duration ws evs).2, we,
              Int.fdiv (we - (slotsLoop duration ws evs).2) 60000⟩,
              List.mem_append_right _ (List.mem_singleton.mpr rfl), ?_, h2t⟩
          show (slotsLoop duration ws evs).2 ≤ t
          rw [hfin]
          omega
      · rintro (⟨f, hf, hts, hte⟩ | ⟨b, hb, hbs, hbe⟩)
        · rcases List.mem_append.mp hf with hf | hf
          · obtain ⟨ha, hb2, hc2⟩ := hbnd f hf
            rw [hfin] at hc2
            have := hlb.2
            exact ⟨by omega, by omega⟩
          · rw [List.mem_singleton] at hf
            subst hf
            dsimp only at hts hte
            rw [hfin] at hts
            exact ⟨le_trans hlb.1 hts, hte⟩
        · obtain ⟨ha, hb2, hc2⟩ := hev b hb
          have := hlb.2
          exact ⟨le_trans ha hbs, by omega⟩
    · rintro t ⟨hfree, hbusy⟩
      obtain ⟨f, hf, hts, hte⟩ := hfree
      rcases List.mem_append.mp hf with hf | hf
      · exact hdisj t ⟨f, hf, hts, hte⟩ hbusy
      · rw [List.mem_singleton] at hf
        subst hf
        dsimp only at hts
        rw [hfin] at hts
        obtain ⟨b, hb, hbs, hbe⟩ := hbusy
        have := (hev b hb).2.2
        omega
    · rw [List.pairwise_append]
      refine ⟨hpw, List.pairwise_singleton _ _, ?_⟩
      intro f hf tr htr2
      rw [List.mem_singleton] at htr2
      subst htr2
      have := (hbnd f hf).2.2
      dsimp only
      exact this
  · rw [if_neg hc]
    have hwe : we = lastEnd ws evs := by
      rw [hfin] at hc
      omega
    refine ⟨?_, fun t hcon => hdisj t hcon.1 hcon.2, hpw⟩
    intro t
    rw [hwe]
    exact hcov t

theorem findFreeSlots_roundTrip_witness :
    ((∀ t : Int, ((32400000 : Int) ≤ t ∧ t < 61200000) ↔
       ((∃ f ∈ findFreeSlots 32400000 61200000 30
            [⟨36000000, 36900000⟩, ⟨43200000, 46800000⟩],
          f.s ≤ t ∧ t < f.e) ∨
        (∃ b ∈ [(⟨36000000, 36900000⟩ : BusyInterval), ⟨43200000, 46800000⟩],
          b.s ≤ t ∧ t < b.e))) ∧
    (∀ t : Int,
      ¬ ((∃ f ∈ findFreeSlots 32400000 61200000 30
            [⟨36000000, 36900000⟩, ⟨43200000, 46800000⟩],
          f.s ≤ t ∧ t < f.e) ∧
         (∃ b ∈ [(⟨36000000, 36900000⟩ : BusyInterval), ⟨43200000, 46800000⟩],
          b.s ≤ t ∧ t < b.e))) ∧
    List.Pairwise (fun a b => a.e ≤ b.s)
      (findFreeSlots 32400000 61200000 30
        [⟨36000000, 36900000⟩, ⟨43200000, 46800000⟩])) :=
  findFreeSlots_roundTrip 32400000 61200000 30
    [⟨36000000, 36900000⟩, ⟨43200000, 46800000⟩] (by decide) (by decide)
